import Mathlib

/-!
Verification of the cooperative task-scheduling engine of bevy_async_system
(bevy_flurx): a shallow embedding of the race-of-N combinator (wait::any),
the remake primitive, the frame-delay action, and the Reactor scheduler
loops, together with theorems settling the specification claims.
-/

namespace Flurx

/-- Output slot as a value container (runner.rs is not under src; modelled
from the spec, 4.1: a single-slot cell with overwriting set and consuming
take). -/
abbrev Output (T : Type) := Option T

/-- Empty slot, the result of Output::default(). -/
def Output.default {T : Type} : Output T := none

/-- Output::set overwrites the slot with a value. -/
def Output.set {T : Type} (_o : Output T) (v : T) : Output T := some v

/-- Runner interface: the trait method run(&mut self, world, token) -> bool,
modelled as a state-passing function on a runner-state type rho, a world
type omega and a token type tau. -/
structure RunnerIface (ρ ω τ : Type) where
  run : ρ → ω → τ → ρ × ω × Bool

/-- State of AnyRunner (src/action/wait/any.rs): the combinator Output slot
of type usize and the vector of candidate runners. -/
structure AnyRunner (ρ : Type) where
  output : Output Nat
  runners : List ρ
deriving DecidableEq

/-- The loop body of AnyRunner::run (src/action/wait/any.rs, lines 57-63):
iterate over the runners in index order starting at index i, run each once,
and break at the first that reports finished. Returns the updated runner
list, the threaded world, and the index of the first finisher if any. -/
def anyScan {ρ ω τ : Type} (RI : RunnerIface ρ ω τ) (tok : τ) :
    List ρ → ω → Nat → List ρ × ω × Option Nat
  | [], w, _ => ([], w, none)
  | r :: rs, w, i =>
    match RI.run r w tok with
    | (r', w', true) => (r' :: rs, w', some i)
    | (r', w', false) =>
      match anyScan RI tok rs w' (i + 1) with
      | (rs', w'', res) => (r' :: rs', w'', res)

/-- AnyRunner::run (src/action/wait/any.rs, lines 56-71): scan the candidates;
when a finisher exists, clear the runner vector, set the combinator Output to
the finishing index and return true, else keep the updated candidates and
return false. -/
def AnyRunner.run {ρ ω τ : Type} (RI : RunnerIface ρ ω τ)
    (s : AnyRunner ρ) (w : ω) (tok : τ) : AnyRunner ρ × ω × Bool :=
  match anyScan RI tok s.runners w 0 with
  | (_, w', some i) => ({ output := Output.set s.output i, runners := [] }, w', true)
  | (rs', w', none) => ({ output := s.output, runners := rs' }, w', false)

/-- The construction inside wait::any (src/action/wait/any.rs, lines 34-47):
build one runner per candidate action, each bound to its own fresh default
Output slot, and panic (modelled as none) when the collection is empty. -/
def anyConstruct {α ρ : Type} (intoRunner : α → Output Unit → ρ)
    (actions : List α) (output : Output Nat) : Option (AnyRunner ρ) :=
  let runners := actions.map (fun a => intoRunner a Output.default)
  if runners.isEmpty then none
  else some { output := output, runners := runners }

/-- Sequentially run every runner of the list once, in order, threading the
world; used to describe the world and runner states produced by the scan. -/
def runAll {ρ ω τ : Type} (RI : RunnerIface ρ ω τ) (tok : τ) :
    List ρ → ω → List ρ × ω
  | [], w => ([], w)
  | r :: rs, w =>
    match RI.run r w tok with
    | (r', w', _) =>
      match runAll RI tok rs w' with
      | (rs', w'') => (r' :: rs', w'')

/-- The world obtained after sequentially running every runner of the list
once. -/
def worldAfter {ρ ω τ : Type} (RI : RunnerIface ρ ω τ) (tok : τ)
    (rs : List ρ) (w : ω) : ω := (runAll RI tok rs w).2

/-- Whether candidate j reports finished on this tick, when the candidates
are polled in index order threading the world through the earlier ones. -/
def candFin {ρ ω τ : Type} (RI : RunnerIface ρ ω τ) (tok : τ)
    (rs : List ρ) (w : ω) (j : Nat) : Bool :=
  match rs.drop j with
  | [] => false
  | r :: _ => (RI.run r (worldAfter RI tok (rs.take j) w) tok).2.2

theorem runAll_cons {ρ ω τ : Type} (RI : RunnerIface ρ ω τ) (tok : τ)
    (r : ρ) (rs : List ρ) (w : ω) :
    runAll RI tok (r :: rs) w =
      ((RI.run r w tok).1 :: (runAll RI tok rs (RI.run r w tok).2.1).1,
       (runAll RI tok rs (RI.run r w tok).2.1).2) := by
  rcases h : RI.run r w tok with ⟨r', w', b⟩
  simp only [runAll, h]

theorem candFin_zero {ρ ω τ : Type} (RI : RunnerIface ρ ω τ) (tok : τ)
    (r : ρ) (rs : List ρ) (w : ω) :
    candFin RI tok (r :: rs) w 0 = (RI.run r w tok).2.2 := by
  simp [candFin, worldAfter, runAll]

theorem candFin_succ {ρ ω τ : Type} (RI : RunnerIface ρ ω τ) (tok : τ)
    (r : ρ) (rs : List ρ) (w : ω) (j : Nat) :
    candFin RI tok (r :: rs) w (j + 1) =
      candFin RI tok rs (RI.run r w tok).2.1 j := by
  simp only [candFin, List.drop_succ_cons, List.take_succ_cons]
  rw [worldAfter, runAll_cons]
  simp [worldAfter]

theorem anyScan_win {ρ ω τ : Type} (RI : RunnerIface ρ ω τ) (tok : τ) :
    ∀ (rs : List ρ) (w : ω) (i j : Nat),
      candFin RI tok rs w j = true →
      (∀ k, k < j → candFin RI tok rs w k = false) →
      anyScan RI tok rs w i =
        ((runAll RI tok (rs.take (j + 1)) w).1 ++ rs.drop (j + 1),
         worldAfter RI tok (rs.take (j + 1)) w, some (i + j))
  | [], w, i, j, hwin, _ => by simp [candFin] at hwin
  | r :: rs, w, i, 0, hwin, _ => by
    rw [candFin_zero] at hwin
    rcases h : RI.run r w tok with ⟨r', w', b⟩
    rw [h] at hwin; simp only at hwin; subst hwin
    simp only [anyScan, h, List.take_succ_cons, List.take_zero, List.drop_succ_cons,
      List.drop_zero, worldAfter, runAll_cons, h, runAll, Nat.add_zero,
      List.singleton_append]
  | r :: rs, w, i, j + 1, hwin, hmin => by
    have h0 : (RI.run r w tok).2.2 = false := by
      have := hmin 0 (Nat.succ_pos j); rwa [candFin_zero] at this
    rcases h : RI.run r w tok with ⟨r', w', b⟩
    rw [h] at h0; simp only at h0; subst h0
    have hwin' : candFin RI tok rs w' j = true := by
      rw [candFin_succ, h] at hwin; exact hwin
    have hmin' : ∀ k, k < j → candFin RI tok rs w' k = false := by
      intro k hk
      have := hmin (k + 1) (Nat.succ_lt_succ hk)
      rw [candFin_succ, h] at this; exact this
    have ih := anyScan_win RI tok rs w' (i + 1) j hwin' hmin'
    simp only [anyScan, h, ih, List.take_succ_cons, List.drop_succ_cons, worldAfter,
      runAll_cons, h, List.cons_append]
    have hij : i + 1 + j = i + (j + 1) := by omega
    rw [hij]

/-- Claim C1: for every list of candidates, a run call of the wait::any
combinator polls the candidates in index order from index 0 and stops at the
first whose run returns true: when j is the first index finishing on this
tick, the combinator Output is set to j, run returns true, the world is the
one threaded through candidates 0..j only, and the candidates after j are
returned by the scan untouched (they are not polled on this tick). -/
theorem c1_any_lowest_index_wins {ρ ω τ : Type} (RI : RunnerIface ρ ω τ)
    (tok : τ) (o : Output Nat) (rs : List ρ) (w : ω) (j : Nat)
    (hwin : candFin RI tok rs w j = true)
    (hmin : ∀ k, k < j → candFin RI tok rs w k = false) :
    AnyRunner.run RI ⟨o, rs⟩ w tok =
      (⟨Output.set o j, []⟩, worldAfter RI tok (rs.take (j + 1)) w, true) ∧
    anyScan RI tok rs w 0 =
      ((runAll RI tok (rs.take (j + 1)) w).1 ++ rs.drop (j + 1),
       worldAfter RI tok (rs.take (j + 1)) w, some j) := by
  have hscan := anyScan_win RI tok rs w 0 j hwin hmin
  rw [Nat.zero_add] at hscan
  refine ⟨?_, hscan⟩
  simp only [AnyRunner.run, hscan]

/-- A concrete race interface for witnesses: a candidate is a script of
booleans consumed one per call, the world counts the number of candidate
polls performed. -/
def scriptRI : RunnerIface (List Bool) Nat Unit :=
  ⟨fun r w _ => (r.tail, w + 1, r.headD false)⟩

theorem c1_any_lowest_index_wins_witness :
    AnyRunner.run scriptRI ⟨Output.default, [[false, true], [true], [true]]⟩ 0 () =
      (⟨Output.set Output.default 1, []⟩,
       worldAfter scriptRI () ([[false, true], [true], [true]].take 2) 0, true) ∧
    anyScan scriptRI () [[false, true], [true], [true]] 0 0 =
      ((runAll scriptRI () ([[false, true], [true], [true]].take 2) 0).1 ++
        [[false, true], [true], [true]].drop 2,
       worldAfter scriptRI () ([[false, true], [true], [true]].take 2) 0, some 1) :=
  c1_any_lowest_index_wins scriptRI () Output.default
    [[false, true], [true], [true]] 0 1 (by decide)
    (by
      intro k hk
      rw [Nat.lt_one_iff.mp hk]
      decide)

/-- Claim C2: the construction of wait::any panics exactly when the candidate
collection is empty; the panic (modelled as none) happens at construction,
which never invokes any run method. -/
theorem c2_any_empty_panics {α ρ : Type} (intoRunner : α → Output Unit → ρ)
    (actions : List α) (output : Output Nat) :
    anyConstruct intoRunner actions output = none ↔ actions = [] := by
  cases actions <;> simp [anyConstruct]

theorem anyRun_no_runners {ρ ω τ : Type} (RI : RunnerIface ρ ω τ)
    (s : AnyRunner ρ) (h : s.runners = []) (w : ω) (tok : τ) :
    AnyRunner.run RI s w tok = (s, w, false) := by
  rcases s with ⟨o, rs⟩
  simp only at h
  subst h
  simp [AnyRunner.run, anyScan]

theorem anyRun_finished_clears {ρ ω τ : Type} (RI : RunnerIface ρ ω τ)
    (s : AnyRunner ρ) (w : ω) (tok : τ)
    (h : (AnyRunner.run RI s w tok).2.2 = true) :
    (AnyRunner.run RI s w tok).1.runners = [] := by
  unfold AnyRunner.run at h ⊢
  rcases hs : anyScan RI tok s.runners w 0 with ⟨rs', w', res⟩
  cases res <;> simp_all

/-- State of the combinator after n further run calls, the world and token of
each later call supplied by streams. -/
def runStates {ρ ω τ : Type} (RI : RunnerIface ρ ω τ) (ws : Nat → ω)
    (toks : Nat → τ) (s : AnyRunner ρ) : Nat → AnyRunner ρ
  | 0 => s
  | n + 1 => (AnyRunner.run RI (runStates RI ws toks s n) (ws n) (toks n)).1

theorem runStates_fixed {ρ ω τ : Type} (RI : RunnerIface ρ ω τ)
    (ws : Nat → ω) (toks : Nat → τ) (s : AnyRunner ρ) (h : s.runners = []) :
    ∀ n, runStates RI ws toks s n = s := by
  intro n
  induction n with
  | zero => rfl
  | succ n ih => rw [runStates, ih, anyRun_no_runners RI s h]

/-- Claim C3: once a run call of the wait::any combinator has returned true,
all candidate runners (the winner included) are dropped at that moment
(runners is cleared), and no candidate run is ever invoked again: after any
number of further run calls, under any candidate interface whatever, the
state stays the post-win state and every later call returns false. -/
theorem c3_no_candidate_after_win {ρ ω τ : Type} (RI RI₂ : RunnerIface ρ ω τ)
    (s : AnyRunner ρ) (w : ω) (tok : τ) (ws : Nat → ω) (toks : Nat → τ) (n : Nat)
    (h : (AnyRunner.run RI s w tok).2.2 = true) :
    (AnyRunner.run RI s w tok).1.runners = [] ∧
    runStates RI₂ ws toks (AnyRunner.run RI s w tok).1 n =
      (AnyRunner.run RI s w tok).1 ∧
    (AnyRunner.run RI₂ (runStates RI₂ ws toks (AnyRunner.run RI s w tok).1 n)
      (ws n) (toks n)).2.2 = false := by
  have hcl := anyRun_finished_clears RI s w tok h
  refine ⟨hcl, runStates_fixed RI₂ ws toks _ hcl n, ?_⟩
  rw [runStates_fixed RI₂ ws toks _ hcl n,
    anyRun_no_runners RI₂ _ hcl (ws n) (toks n)]

theorem c3_no_candidate_after_win_witness :
    (AnyRunner.run scriptRI ⟨Output.default, [[true]]⟩ 0 ()).1.runners = [] ∧
    runStates scriptRI (fun _ => 5) (fun _ => ())
        (AnyRunner.run scriptRI ⟨Output.default, [[true]]⟩ 0 ()).1 3 =
      (AnyRunner.run scriptRI ⟨Output.default, [[true]]⟩ 0 ()).1 ∧
    (AnyRunner.run scriptRI
      (runStates scriptRI (fun _ => 5) (fun _ => ())
        (AnyRunner.run scriptRI ⟨Output.default, [[true]]⟩ 0 ()).1 3)
      5 ()).2.2 = false :=
  c3_no_candidate_after_win scriptRI scriptRI ⟨Output.default, [[true]]⟩ 0 ()
    (fun _ => 5) (fun _ => ()) 3 (by decide)

/-- Claim C9: a run call made after one that returned true invokes no
candidate runner (its result is the same under every candidate interface),
leaves the combinator state, its Output included, unchanged, performs no
world mutation, and returns false. -/
theorem c9_run_after_win_noop {ρ ω τ : Type} (RI RI₂ : RunnerIface ρ ω τ)
    (s : AnyRunner ρ) (w w₂ : ω) (tok tok₂ : τ)
    (h : (AnyRunner.run RI s w tok).2.2 = true) :
    AnyRunner.run RI₂ (AnyRunner.run RI s w tok).1 w₂ tok₂ =
      ((AnyRunner.run RI s w tok).1, w₂, false) :=
  anyRun_no_runners RI₂ _ (anyRun_finished_clears RI s w tok h) w₂ tok₂

theorem c9_run_after_win_noop_witness :
    AnyRunner.run scriptRI
        (AnyRunner.run scriptRI ⟨Output.default, [[false], [true]]⟩ 0 ()).1 9 () =
      ((AnyRunner.run scriptRI ⟨Output.default, [[false], [true]]⟩ 0 ()).1, 9, false) :=
  c9_run_after_win_noop scriptRI scriptRI ⟨Output.default, [[false], [true]]⟩
    0 9 () () (by decide)

/-- Token-recording candidate interface: each candidate records every token
value its run receives; such runs never finish and leave the world
unchanged. -/
def recRI (ω τ : Type) : RunnerIface (List τ) ω τ :=
  ⟨fun r w tok => (tok :: r, w, false)⟩

/-- Claim C4 counterexample: run the combinator, built over two
token-recording candidates, with the combinator token 7: both candidates
receive the value 7 itself, so the candidates are not run under independent
child tokens distinct from the combinator token — they share the combinator
token, refuting the claim as stated. -/
theorem c4_shared_token_counterexample :
    (AnyRunner.run (recRI Unit Nat) ⟨Output.default, [[], []]⟩ () 7).1.runners =
      [[7], [7]] ∧
    ¬ (∀ r ∈ (AnyRunner.run (recRI Unit Nat)
        ⟨Output.default, [[], []]⟩ () 7).1.runners, 7 ∉ r) := by
  decide

theorem recRI_run {ω τ : Type} (r : List τ) (w : ω) (tok : τ) :
    (recRI ω τ).run r w tok = (tok :: r, w, false) := rfl

theorem anyScan_recRI {ω τ : Type} (tok : τ) (n : Nat) :
    ∀ (w : ω) (i : Nat),
      anyScan (recRI ω τ) tok (List.replicate n []) w i =
        (List.replicate n [tok], w, none) := by
  induction n with
  | zero => intro w i; simp [anyScan]
  | succ n ih =>
    intro w i
    simp only [List.replicate_succ, anyScan, recRI_run, ih]

/-- Claim C4, amended: wait::any builds one runner per candidate at
construction time, giving each candidate its own fresh default Output slot;
when the combinator runs, every candidate polled receives the combinator
token itself, shared by all candidates — no child token is derived. -/
theorem c4_amended_construction_and_token {α ρ ω τ : Type}
    (intoRunner : α → Output Unit → ρ) (actions : List α) (output : Output Nat)
    (h : actions ≠ []) :
    anyConstruct intoRunner actions output =
      some ⟨output, actions.map (fun a => intoRunner a Output.default)⟩ ∧
    ∀ (n : Nat) (w : ω) (tok : τ) (o : Output Nat),
      AnyRunner.run (recRI ω τ) ⟨o, List.replicate n []⟩ w tok =
        (⟨o, List.replicate n [tok]⟩, w, false) := by
  constructor
  · cases actions with
    | nil => exact absurd rfl h
    | cons a as => simp [anyConstruct]
  · intro n w tok o
    simp only [AnyRunner.run, anyScan_recRI]

theorem c4_amended_construction_and_token_witness :
    anyConstruct (fun (_ : Unit) (_ : Output Unit) => ([] : List Nat))
        [(), ()] Output.default =
      some ⟨Output.default,
        [(), ()].map (fun a => (fun (_ : Unit) (_ : Output Unit) =>
          ([] : List Nat)) a Output.default)⟩ ∧
    ∀ (n : Nat) (w : Nat) (tok : Nat) (o : Output Nat),
      AnyRunner.run (recRI Nat Nat) ⟨o, List.replicate n []⟩ w tok =
        (⟨o, List.replicate n [tok]⟩, w, false) :=
  c4_amended_construction_and_token
    (fun (_ : Unit) (_ : Output Unit) => ([] : List Nat)) [(), ()]
    Output.default (by decide)

/-- One Reactor entity as the schedulers see it: whether it carries the
Initialized marker, and how many times run_sync has driven it (run_sync,
whose body is not under src, is abstracted to a drive counter). -/
structure ReactorEnt where
  inited : Bool
  drives : Nat
deriving DecidableEq

/-- Body of run_reactors (src/lib.rs, lines 96-109) for one queried entity:
drive the reactor once; when the entity lacks the Initialized marker, insert
the marker and drive the reactor a second time within the same tick. -/
def runReactorsOne (r : ReactorEnt) : ReactorEnt :=
  let r1 : ReactorEnt := { r with drives := r.drives + 1 }
  if r.inited then r1
  else { inited := true, drives := r1.drives + 1 }

/-- run_reactors (src/lib.rs): the RunReactor-schedule system, applied to
every live Reactor entity once per tick. -/
def run_reactors (es : List ReactorEnt) : List ReactorEnt :=
  es.map runReactorsOne

/-- Body of the PostStartup system of src/lib.rs, lines 84-94, for one
queried entity: the reactors freshly added and still without the Initialized
marker each get the marker inserted and are driven once. -/
def initReactorsOne (r : ReactorEnt) : ReactorEnt :=
  if r.inited then r else { inited := true, drives := r.drives + 1 }

/-- The PostStartup initializer system of src/lib.rs applied to the spawned
Reactor entities. -/
def initReactors (es : List ReactorEnt) : List ReactorEnt :=
  es.map initReactorsOne

/-- n steady-state ticks of the RunReactor schedule. -/
def ticks : Nat → List ReactorEnt → List ReactorEnt
  | 0, es => es
  | n + 1, es => ticks n (run_reactors es)

theorem run_reactors_inited (d : Nat) :
    run_reactors [⟨true, d⟩] = [⟨true, d + 1⟩] := by
  simp [run_reactors, runReactorsOne]

theorem ticks_inited (n : Nat) : ∀ d, ticks n [⟨true, d⟩] = [⟨true, d + n⟩] := by
  induction n with
  | zero => intro d; simp [ticks]
  | succ n ih =>
    intro d
    rw [ticks, run_reactors_inited, ih]
    have h : d + 1 + n = d + (n + 1) := by omega
    rw [h]

/-- Claim C5: a Reactor carrying Initialized is driven exactly once per tick;
one without the marker is, within its first tick, marked Initialized and
driven a second time, so a Reactor appearing mid-cycle is driven twice on its
first tick and once per tick thereafter, while a Reactor registered during
startup is driven once by the PostStartup initializer (which also marks it)
and then once per steady-state tick. -/
theorem c5_reactor_drive_counts (n d : Nat) :
    ticks n [⟨true, d⟩] = [⟨true, d + n⟩] ∧
    ticks (n + 1) [⟨false, d⟩] = [⟨true, d + 2 + n⟩] ∧
    ticks n (initReactors [⟨false, d⟩]) = [⟨true, d + 1 + n⟩] ∧
    run_reactors [⟨false, d⟩] = [⟨true, d + 2⟩] ∧
    run_reactors [⟨true, d⟩] = [⟨true, d + 1⟩] ∧
    initReactors [⟨false, d⟩] = [⟨true, d + 1⟩] := by
  have hrun : run_reactors [⟨false, d⟩] = [⟨true, d + 2⟩] := by
    simp [run_reactors, runReactorsOne]
  have hinit : initReactors [⟨false, d⟩] = [⟨true, d + 1⟩] := by
    simp [initReactors, initReactorsOne]
  refine ⟨ticks_inited n d, ?_, ?_, hrun, run_reactors_inited d, hinit⟩
  · rw [ticks, hrun, ticks_inited]
  · rw [hinit, ticks_inited]

/-- The system inside delay::frames (src/action/delay.rs, lines 58-64): the
Local usize frame_now starts at its default 0; each run of the system first
increments it and then reports whether frames <= frame_now. -/
def framesSystem (frames frame_now : Nat) : Nat × Bool :=
  (frame_now + 1, decide (frames ≤ frame_now + 1))

/-- Modelled from the spec: wait::until (wait/mod.rs is not under src) runs
its system once per run call of the runner and finishes exactly when the
system returns true; the Local state persists between calls. framesLocal
frames k is the frame_now value after k run calls. -/
def framesLocal (frames : Nat) : Nat → Nat
  | 0 => 0
  | k + 1 => (framesSystem frames (framesLocal frames k)).1

/-- Result of the k-th run call (1-indexed) of the delay::frames runner. -/
def framesNthCall (frames : Nat) : Nat → Bool
  | 0 => false
  | k + 1 => (framesSystem frames (framesLocal frames k)).2

theorem framesLocal_eq (frames : Nat) : ∀ k, framesLocal frames k = k := by
  intro k
  induction k with
  | zero => rfl
  | succ k ih => rw [framesLocal]; simp [framesSystem, ih]

/-- Claim C7: for every N >= 1, the runner produced by
delay::frames().with(N) returns false on each of its first N-1 run calls and
returns true exactly on its N-th run call. -/
theorem c7_frames_delay (N : Nat) (hN : 1 ≤ N) :
    (∀ k, 1 ≤ k → k < N → framesNthCall N k = false) ∧
    framesNthCall N N = true := by
  constructor
  · intro k hk1 hk2
    rcases k with _ | k
    · omega
    · simp only [framesNthCall, framesSystem, framesLocal_eq,
        decide_eq_false_iff_not]
      omega
  · rcases N with _ | m
    · omega
    · simp only [framesNthCall, framesSystem, framesLocal_eq,
        decide_eq_true_eq]
      omega

theorem c7_frames_delay_witness :
    (∀ k, 1 ≤ k → k < 3 → framesNthCall 3 k = false) ∧
    framesNthCall 3 3 = true :=
  c7_frames_delay 3 (by decide)

/-- Modelled from the spec, 4.4 (reactor.rs and task.rs are not under src): a
Reactor coroutine is the list of runners it will await in order; one drive
call runs the runner at the current suspension point and, each time that
runner finishes, lets the continuation proceed synchronously within the same
drive call to the next suspension point; the empty list is the Completed
state. -/
def drive {ρ ω τ : Type} (RI : RunnerIface ρ ω τ) (tok : τ) :
    List ρ → ω → List ρ × ω
  | [], w => ([], w)
  | r :: rest, w =>
    match RI.run r w tok with
    | (_, w', true) => drive RI tok rest w'
    | (r', w', false) => (r' :: rest, w')

/-- Claim C8: a Reactor whose coroutine awaits a single Action whose runner
finishes on its first run call completes within that one drive call (the
continuation resumes synchronously and the Completed state is reached, no
extra tick being consumed), and no second drive is required: driving the
Completed Reactor is a no-op. -/
theorem c8_immediate_completion {ρ ω τ : Type} (RI : RunnerIface ρ ω τ)
    (tok : τ) (r : ρ) (w : ω)
    (h : (RI.run r w tok).2.2 = true) :
    drive RI tok [r] w = ([], (RI.run r w tok).2.1) ∧
    ∀ w₂ : ω, drive RI tok ([] : List ρ) w₂ = ([], w₂) := by
  constructor
  · rcases hr : RI.run r w tok with ⟨r', w', b⟩
    rw [hr] at h
    simp only at h
    subst h
    simp [drive, hr]
  · intro w₂
    simp [drive]

theorem c8_immediate_completion_witness :
    drive scriptRI () [[true]] 0 = ([], (scriptRI.run [true] 0 ()).2.1) ∧
    ∀ w₂ : Nat, drive scriptRI () ([] : List (List Bool)) w₂ = ([], w₂) :=
  c8_immediate_completion scriptRI () [true] 0 (by decide)

/-- Modelled from the spec, 4.2 (seed.rs is not under src): an ActionSeed is
the wrapped Runner constructor (input, CancellationToken, Output slot) to
Runner. Output slots here carry allocator identities (Nat ids handed out by a
counter, every already-allocated slot having an id below the next-free one)
so that freshness of a slot is expressible; a constructor may itself allocate
further slots, so it threads the next-free id. -/
def SeedCon (I R τ : Type) := I → τ → Nat → Nat → R × Nat

/-- Remake::remake for ActionSeed (src/action/remake.rs, lines 18-29): the
composed construction allocates a fresh Output slot o1, constructs the inner
runner bound to o1 and to a clone of the same token, and hands f exactly the
inner runner, o1, the token and the composed output slot. -/
def remakeSeed {I R1 R2 τ : Type} (s : SeedCon I R1 τ)
    (f : R1 → Nat → τ → Nat → R2) : SeedCon I R2 τ :=
  fun input token output next =>
    let o1 := next
    let res := s input token o1 (next + 1)
    (f res.1 o1 token output, res.2)

/-- Claim C6: the construction produced by remake for a seed allocates a
fresh Output slot (the next-free id, distinct from the composed output slot,
which was allocated earlier), builds the inner runner bound to that fresh
slot and to the same token, and calls f with exactly the inner runner, the
fresh slot, the token and the composed output slot; the inner runner is only
constructed when the composed runner is constructed, and no world is touched
(the construction consumes none). -/
theorem c6_remake_fresh_slot {I R1 R2 τ : Type} (s : SeedCon I R1 τ)
    (f : R1 → Nat → τ → Nat → R2) (input : I) (token : τ)
    (output next : Nat) (h : output < next) :
    remakeSeed s f input token output next =
      (f (s input token next (next + 1)).1 next token output,
       (s input token next (next + 1)).2) ∧
    next ≠ output :=
  ⟨rfl, by omega⟩

/-- Concrete seed for the C6 witness: the runner value records input, token
and bound output slot. -/
def wSeed : SeedCon Nat Nat Nat := fun i t o n => ((i * 10 + t) * 10 + o, n)

/-- Concrete wrapping function for the C6 witness: records all four
arguments. -/
def wWrap (r o1 t o2 : Nat) : Nat := ((r * 10 + o1) * 10 + t) * 10 + o2

theorem c6_remake_fresh_slot_witness :
    remakeSeed wSeed wWrap 1 2 0 1 =
      (wWrap (wSeed 1 2 1 2).1 1 2 0, (wSeed 1 2 1 2).2) ∧
    1 ≠ 0 :=
  c6_remake_fresh_slot wSeed wWrap 1 2 0 1 (by decide)

/-- Modelled from the spec and the remake.rs usage: Action<I,O> is the bound
input together with the seed (remake.rs reads self.0, the input, and self.1,
the seed). -/
def Action (I R τ : Type) := I × SeedCon I R τ

/-- ActionSeed::with: bind a seed to a concrete input. -/
def SeedCon.withInput {I R τ : Type} (s : SeedCon I R τ) (input : I) :
    Action I R τ := (input, s)

/-- Remake::remake for Action (src/action/remake.rs, lines 38-45):
self.1.remake(f).with(self.0). -/
def remakeAction {I R1 R2 τ : Type} (a : Action I R1 τ)
    (f : R1 → Nat → τ → Nat → R2) : Action I R2 τ :=
  SeedCon.withInput (remakeSeed a.2 f) a.1

/-- Construct the runner of an Action from its seed at its bound input. -/
def Action.construct {I R τ : Type} (a : Action I R τ) (token : τ)
    (output next : Nat) : R × Nat := a.2 a.1 token output next

/-- Claim C10: remaking an Action (x, s) is the same composed action as
remaking the seed s and rebinding the input x, both as a value and in the
runner construction it performs for every token, output slot and allocator
state. -/
theorem c10_action_remake_eq_seed_remake_with {I R1 R2 τ : Type} (x : I)
    (s : SeedCon I R1 τ) (f : R1 → Nat → τ → Nat → R2) :
    remakeAction (x, s) f = SeedCon.withInput (remakeSeed s f) x ∧
    ∀ (token : τ) (output next : Nat),
      Action.construct (remakeAction (x, s) f) token output next =
        Action.construct (SeedCon.withInput (remakeSeed s f) x) token
          output next :=
  ⟨rfl, fun _ _ _ => rfl⟩

end Flurx
